import Mathlib

/-!
Shallow embedding of the beam upload service (Go) in Lean 4, covering the
upload lifecycle service (`internal/server/service/upload.go`), the cleanup
service (`internal/server/storage/cleanup.go`) and the per-IP rate limiter
(`internal/server/api/middleware.go`).

Modelling conventions:
- Timestamps are integers (`Int`, think nanoseconds); `time.Now().After(t)`
  is the strict comparison `t < now`.
- Machine `int64` arithmetic is `Int` with an explicit wrap `toInt64` where
  the Go code can overflow; `float64` limiter balances are modelled as `ℚ`.
- Fallible store / database / crypto calls are driven by an explicit
  `Faults` record of failure-injection flags, so error paths are ordinary
  executable branches.
- External libraries that are not part of this repository (Go's `archive/zip`
  parser, `crypto/sha256`, `bcrypt`, `crypto/rand`) are abstracted: the zip
  parser is a function parameter, randomness is an oracle stream, and the
  hashes are deterministic stand-ins (no claim depends on their internals).
- String lengths are counted in characters; all concrete inputs used in the
  development are ASCII, where Go's byte counts agree.
-/

deriving instance DecidableEq for Except

namespace Beam

/-- Sentinel errors of the service layer (`upload.go` lines 27-36).
`internal` stands for the wrapped `fmt.Errorf` failures that are not one of
the sentinel values. -/
inductive Err where
  | notFound
  | expired
  | passwordRequired
  | invalidPassword
  | invalidToken
  | fileTooLarge
  | invalidZip
  | dangerousFile
  | internal (msg : String)
deriving DecidableEq, Repr

/-- The 62-character alphanumeric alphabet of `generateSecureToken`. -/
def charset : List Char :=
  "abcdefghijklmnopqrstuvwxyzABCDEFGHIJKLMNOPQRSTUVWXYZ0123456789".data

/-- `generateSecureToken` (`upload.go` lines 300-311): each character is
`charset[n]` for a fresh random `n` below `len(charset)`.  The random source
`crypto/rand` is modelled as an oracle stream `Nat → Nat`, reduced modulo
`charset.length` exactly as `rand.Int(rand.Reader, 62)` guarantees a value
below 62. -/
def generateSecureToken (oracle : Nat → Nat) (length : Nat) : String :=
  String.mk ((List.range length).map (fun i => charset.getD (oracle i % charset.length) 'A'))

/-- One entry of a parsed zip archive: its name and declared
`UncompressedSize64` (a `uint64`, hence a `Nat`). -/
structure ZipEntry where
  name : String
  uncompressedSize : Nat
deriving DecidableEq, Repr

/-- Wrap an integer into the `int64` range, as Go's `int64` arithmetic does. -/
def toInt64 (x : Int) : Int := (x + 2 ^ 63) % 2 ^ 64 - 2 ^ 63

/-- Go's `int64(u)` conversion applied to a `uint64` value. -/
def int64ofUInt64 (u : Nat) : Int := toInt64 ((u : Int) % 2 ^ 64)

/-- The fixed extension denylist `dangerousExtensions`
(`upload.go` lines 39-44). -/
def dangerousExtensions : List String :=
  [".exe", ".bat", ".cmd", ".com", ".scr", ".pif", ".vbs", ".vbe",
   ".wsf", ".wsh", ".msi", ".hta", ".lnk", ".cpl", ".inf", ".reg"]

/-- Core loop of Go's `path/filepath.Ext`: walk the name from its end
(first argument is the reversed name, second the suffix already passed);
stop at a path separator with no extension, or at a dot returning the
suffix from that dot on. -/
def extGo : List Char → List Char → List Char
  | [], _ => []
  | c :: r, suffix =>
    if c = '/' then []
    else if c = '.' then c :: suffix
    else extGo r (c :: suffix)

/-- Go's `filepath.Ext`: the suffix from the final dot of the final path
element, empty when there is no dot. -/
def filepathExt (s : String) : String := String.mk (extGo s.data.reverse [])

/-- Per-character lowercasing as Go's `unicode.ToLower` behaves on the
characters that can affect the ASCII denylist membership below: ASCII
`A`-`Z` map down by 32 (`Char.toLower`), and the two non-ASCII code points
whose Unicode simple lowercase mapping lands in ASCII are handled
explicitly — U+0130 (Latin capital I with dot above) maps to `i` and
U+212A (Kelvin sign) maps to `k`.  Every other character Go lowercases maps
to a non-ASCII character, which can never produce an (all-ASCII) denylist
entry, so keeping it unchanged preserves the denylist test exactly. -/
def charToLowerGo (c : Char) : Char :=
  if c.toNat = 0x0130 then 'i'
  else if c.toNat = 0x212A then 'k'
  else c.toLower

/-- Go's `strings.ToLower`, character by character (see `charToLowerGo`). -/
def toLowerStr (s : String) : String := String.mk (s.data.map charToLowerGo)

/-- `validateZipMagicBytes` (`upload.go` lines 314-327): a buffer shorter
than 4 bytes is invalid; otherwise the first four bytes must be
`PK\x03\x04` (local file header) or `PK\x05\x06` (empty archive). -/
def validateZipMagicBytes (data : List Nat) : Except Err Unit :=
  match data with
  | b0 :: b1 :: b2 :: b3 :: _ =>
    if b0 = 0x50 ∧ b1 = 0x4B ∧ ((b2 = 0x03 ∧ b3 = 0x04) ∨ (b2 = 0x05 ∧ b3 = 0x06)) then
      Except.ok ()
    else
      Except.error Err.invalidZip
  | _ => Except.error Err.invalidZip

/-- The entry loop of `validateAndMeasureZip` (`upload.go` lines 337-344):
reject on the first denylisted lower-cased extension, otherwise accumulate
`totalUncompressed += int64(f.UncompressedSize64)` with `int64` wrapping. -/
def scanEntries : List ZipEntry → Int → Except Err Int
  | [], total => Except.ok total
  | f :: rest, total =>
    let ext := toLowerStr (filepathExt f.name)
    if ext ∈ dangerousExtensions then
      Except.error Err.dangerousFile
    else
      scanEntries rest (toInt64 (total + int64ofUInt64 f.uncompressedSize))

/-- `validateAndMeasureZip` (`upload.go` lines 331-347).  Go's `zip.NewReader`
is external library code, abstracted as the `parse` parameter: `none` is a
parse failure (the `ErrInvalidZip`-wrapped error), `some entries` the parsed
file list. -/
def validateAndMeasureZip (parse : List Nat → Option (List ZipEntry)) (data : List Nat) :
    Except Err Int :=
  match parse data with
  | none => Except.error Err.invalidZip
  | some entries => scanEntries entries 0

/-- Go's `filepath.Base`: `"."` for the empty path, else strip trailing
slashes, keep what follows the last slash, and `"/"` when only slashes
remain. -/
def filepathBase (s : String) : String :=
  if s = "" then "."
  else
    let stripped := (s.data.reverse.dropWhile (fun c => c = '/')).reverse
    let last := (stripped.reverse.takeWhile (fun c => c ≠ '/')).reverse
    if last = [] then "/" else String.mk last

/-- `sanitizeFilename` (`upload.go` lines 350-369): normalize backslashes,
take the base name, truncate to 255 characters preserving the extension, and
fall back to `"upload.zip"` for an empty or bare-dot result.  The Go
truncation slices `name[:255-len(ext)]`; when `len(ext) > 255` the index is
negative and the slice expression panics at run time, modelled as `none`. -/
def sanitizeFilename (name : String) : Option String :=
  let name1 := String.mk (name.data.map (fun c => if c = '\\' then '/' else c))
  let name2 := filepathBase name1
  let name3? : Option String :=
    if 255 < name2.length then
      let ext := filepathExt name2
      if 255 < ext.length then none
      else some (String.mk (name2.data.take (255 - ext.length)) ++ ext)
    else some name2
  match name3? with
  | none => none
  | some n => some (if n = "" ∨ n = "." then "upload.zip" else n)

/-- Deterministic stand-in for the external `crypto/sha256` digest (the
service only uses it for the advisory duplicate log). -/
def sha256hex (data : List Nat) : String := String.intercalate "," (data.map toString)

/-- Deterministic stand-in for the external `bcrypt.GenerateFromPassword`. -/
def bcryptHash (password : String) : String := "bc$" ++ password

/-- Deterministic stand-in for the external
`bcrypt.CompareHashAndPassword` (succeeds exactly on the hashed password). -/
def bcryptCompare (hash password : String) : Bool := hash == bcryptHash password

/-- A row of the `uploads` table (`database/models.go`). -/
structure Upload where
  id : String
  filename : String
  originalSize : Int
  compressedSize : Int
  fileHash : String
  uploadedAt : Int
  expiresAt : Int
  downloadCount : Nat
  passwordHash : Option String
  deletionToken : String
  createdAt : Int
deriving DecidableEq, Repr

/-- Metadata answer of `GetInfo` (`upload.go` lines 57-66). -/
structure UploadInfo where
  id : String
  filename : String
  originalSize : Int
  compressedSize : Int
  uploadedAt : Int
  expiresAt : Int
  downloadCount : Nat
  hasPassword : Bool
deriving DecidableEq, Repr

/-- Result of a successful `ProcessUpload` (`upload.go` lines 47-54). -/
structure UploadResult where
  id : String
  downloadURL : String
  deletionToken : String
  expiresAt : Int
  filename : String
  size : Int
deriving DecidableEq, Repr

/-- The configuration fields `ProcessUpload` reads (`config.go`). -/
structure Config where
  maxFileSize : Int
  defaultExpiry : Int
  baseURL : String
deriving DecidableEq, Repr

/-- Joint state of the two external stores: the Record Store (database
rows) and the Blob Store (id-keyed byte blobs). -/
structure ServerState where
  records : List Upload
  blobs : List (String × List Nat)
deriving DecidableEq, Repr

/-- Failure-injection flags for the fallible external calls.  `false`
everywhere is normal operation; a `true` flag makes the corresponding call
return its error. -/
structure Faults where
  genId : Bool
  genToken : Bool
  readData : Bool
  storeSave : Bool
  hashPassword : Bool
  repoCreate : Bool
  storeDelete : String → Bool
  repoDelete : String → Bool
  repoGetExpired : Bool
  incrementCount : Bool

/-- Normal operation: no injected failures. -/
def noFaults : Faults :=
  ⟨false, false, false, false, false, false, fun _ => false, fun _ => false, false, false⟩

/-- `repo.GetByID`: the row with the given primary key, if any. -/
def findRecord (records : List Upload) (id : String) : Option Upload :=
  records.find? (fun u => u.id == id)

/-- Best-effort `store.Delete` as used for compensation: on an injected
failure the blob survives, otherwise every blob stored under `id` is
removed; the call's error is ignored by the caller. -/
def storeDeleteOp (st : ServerState) (f : Faults) (id : String) : ServerState :=
  if f.storeDelete id then st
  else { st with blobs := st.blobs.filter (fun b => b.1 ≠ id) }

/-- `GetInfo` (`upload.go` lines 199-222): record lookup, strict expiry
check `time.Now().After(upload.ExpiresAt)`, then the metadata view. -/
def getInfo (st : ServerState) (now : Int) (id : String) : Except Err UploadInfo :=
  match findRecord st.records id with
  | none => Except.error Err.notFound
  | some u =>
    if u.expiresAt < now then Except.error Err.expired
    else
      Except.ok
        { id := u.id, filename := u.filename, originalSize := u.originalSize,
          compressedSize := u.compressedSize, uploadedAt := u.uploadedAt,
          expiresAt := u.expiresAt, downloadCount := u.downloadCount,
          hasPassword := u.passwordHash.isSome }

/-- `Download` (`upload.go` lines 226-261): lookup, strict expiry check,
password check, path resolution from the blob store, then the best-effort
download-count increment.  Returns the (path, filename) pair and the
updated state. -/
def download (st : ServerState) (f : Faults) (now : Int) (id password : String) :
    Except Err (String × String) × ServerState :=
  match findRecord st.records id with
  | none => (Except.error Err.notFound, st)
  | some u =>
    if u.expiresAt < now then (Except.error Err.expired, st)
    else
      let pwCheck : Except Err Unit :=
        match u.passwordHash with
        | none => Except.ok ()
        | some ph =>
          if password = "" then Except.error Err.passwordRequired
          else if bcryptCompare ph password then Except.ok ()
          else Except.error Err.invalidPassword
      match pwCheck with
      | Except.error e => (Except.error e, st)
      | Except.ok _ =>
        match st.blobs.find? (fun b => b.1 == id) with
        | none => (Except.error (Err.internal "file not found on disk"), st)
        | some _ =>
          let st' :=
            if f.incrementCount then st
            else
              { st with
                records := st.records.map (fun v =>
                  if v.id == id then { v with downloadCount := v.downloadCount + 1 } else v) }
          (Except.ok (id, u.filename), st')

/-- `DeleteUpload` (`upload.go` lines 264-290): lookup, exact deletion-token
comparison, best-effort blob delete (failure logged, record removal still
proceeds), then the database record delete. -/
def deleteUpload (st : ServerState) (f : Faults) (id token : String) :
    Except Err Unit × ServerState :=
  match findRecord st.records id with
  | none => (Except.error Err.notFound, st)
  | some u =>
    if u.deletionToken ≠ token then (Except.error Err.invalidToken, st)
    else
      let st1 := storeDeleteOp st f id
      if f.repoDelete id then
        (Except.error (Err.internal "failed to delete upload record"), st1)
      else
        (Except.ok (), { st1 with records := st1.records.filter (fun v => v.id ≠ id) })

/-- `ProcessUpload` (`upload.go` lines 86-196).  The random source is the
oracle stream (`id` consumes indices 0-15, the deletion token indices
16-39), the zip parser is the `parse` parameter, and every fallible external
call is driven by `f`.  Error paths return the unchanged (or compensated)
state.  The duplicate-hash lookup (step 6 in the source) only logs and has
no effect on state or outcome, so it is dropped.  The overall `none`
outcome is a run-time panic (a `sanitizeFilename` slice panic while
constructing the record); `some` is a normal return. -/
def processUpload (cfg : Config) (f : Faults) (oracle : Nat → Nat)
    (parse : List Nat → Option (List ZipEntry)) (st : ServerState)
    (filename : String) (data : List Nat) (size : Int) (password : String) (now : Int) :
    Option (Except Err UploadResult × ServerState) :=
  if cfg.maxFileSize < size then some (Except.error Err.fileTooLarge, st)
  else if f.genId then some (Except.error (Err.internal "failed to generate upload ID"), st)
  else
    let uploadID := generateSecureToken oracle 16
    if f.genToken then
      some (Except.error (Err.internal "failed to generate deletion token"), st)
    else
      let deletionToken := "del_" ++ generateSecureToken (fun i => oracle (16 + i)) 24
      if f.readData then some (Except.error (Err.internal "failed to read upload data"), st)
      else
        let fileHash := sha256hex data
        match validateZipMagicBytes data with
        | Except.error e => some (Except.error e, st)
        | Except.ok _ =>
          match validateAndMeasureZip parse data with
          | Except.error e => some (Except.error e, st)
          | Except.ok originalSize =>
            if f.storeSave then some (Except.error (Err.internal "failed to store file"), st)
            else
              let storedBytes : Int := data.length
              let st1 := { st with blobs := (uploadID, data) :: st.blobs }
              if password ≠ "" ∧ f.hashPassword then
                some (Except.error (Err.internal "failed to hash password"),
                  storeDeleteOp st1 f uploadID)
              else
                let passwordHash : Option String :=
                  if password = "" then none else some (bcryptHash password)
                match sanitizeFilename filename with
                | none => none
                | some fname =>
                  let upload : Upload :=
                    { id := uploadID, filename := fname,
                      originalSize := originalSize, compressedSize := storedBytes,
                      fileHash := fileHash, uploadedAt := now,
                      expiresAt := now + cfg.defaultExpiry, downloadCount := 0,
                      passwordHash := passwordHash, deletionToken := deletionToken,
                      createdAt := now }
                  if f.repoCreate then
                    some (Except.error (Err.internal "failed to create upload record"),
                      storeDeleteOp st1 f uploadID)
                  else
                    some (Except.ok
                      { id := uploadID,
                        downloadURL := cfg.baseURL ++ "/d/" ++ uploadID,
                        deletionToken := deletionToken,
                        expiresAt := upload.expiresAt,
                        filename := upload.filename,
                        size := storedBytes },
                     { st1 with records := upload :: st1.records })

/-- Body of the cleanup loop for one expired record (`cleanup.go` lines
74-101): blob delete failure counts as failed and skips the record (the
`continue`), record delete failure likewise; otherwise both are removed and
the record counts as cleaned.  The accumulator is (state, cleaned, failed). -/
def cleanupStep (f : Faults) (acc : ServerState × Nat × Nat) (u : Upload) :
    ServerState × Nat × Nat :=
  let (s, cleaned, failed) := acc
  if f.storeDelete u.id then (s, cleaned, failed + 1)
  else
    let s1 := { s with blobs := s.blobs.filter (fun b => b.1 ≠ u.id) }
    if f.repoDelete u.id then (s1, cleaned, failed + 1)
    else
      ({ s1 with records := s1.records.filter (fun v => v.id ≠ u.id) },
       cleaned + 1, failed)

/-- `runCleanup` (`cleanup.go` lines 59-108): query the expired records
(`WHERE expires_at < NOW()`; a query failure aborts the cycle), then fold
`cleanupStep` over the snapshot. -/
def runCleanup (st : ServerState) (f : Faults) (now : Int) : ServerState × Nat × Nat :=
  if f.repoGetExpired then (st, 0, 0)
  else
    let expired := st.records.filter (fun u => u.expiresAt < now)
    expired.foldl (cleanupStep f) (st, 0, 0)

/-- Per-IP limiter entry (`middleware.go` lines 13-16): `float64` token
balance as `ℚ` and the last-refill timestamp in seconds. -/
structure Visitor where
  tokens : ℚ
  lastCheck : ℚ
deriving DecidableEq, Repr

/-- `RateLimiter` (`middleware.go` lines 19-24): the visitor map as an
association list, refill rate (tokens/second) and burst capacity. -/
structure RateLimiter where
  visitors : List (String × Visitor)
  rate : ℚ
  burst : Int
deriving DecidableEq, Repr

/-- `allow` (`middleware.go` lines 61-90): first request from an address
creates an entry with `burst - 1` tokens and allows; otherwise refill by
`elapsed * rate` capped at `burst`, update the timestamp, deny when the
balance is below 1 (consuming nothing), else consume one token and allow. -/
def allow (rl : RateLimiter) (ip : String) (now : ℚ) : Bool × RateLimiter :=
  match rl.visitors.find? (fun p => p.1 == ip) with
  | none =>
    (true, { rl with visitors := (ip, ⟨(rl.burst : ℚ) - 1, now⟩) :: rl.visitors })
  | some (_, v) =>
    let elapsed := now - v.lastCheck
    let tokens1 := v.tokens + elapsed * rl.rate
    let tokens2 := if (rl.burst : ℚ) < tokens1 then (rl.burst : ℚ) else tokens1
    if tokens2 < 1 then
      (false,
       { rl with visitors := rl.visitors.map (fun p =>
           if p.1 == ip then (p.1, ⟨tokens2, now⟩) else p) })
    else
      (true,
       { rl with visitors := rl.visitors.map (fun p =>
           if p.1 == ip then (p.1, ⟨tokens2 - 1, now⟩) else p) })

/-- Modelled from the spec (section 4.3 state transition), to be compared
with `allow`: if no entry exists, create one with `b - 1` tokens and
timestamp `t` and allow; otherwise add `elapsed * r` tokens capped at `b`,
update the timestamp, deny without consuming when the balance is below 1,
else subtract one and allow. -/
def allowSpec (rl : RateLimiter) (ip : String) (now : ℚ) : Bool × RateLimiter :=
  match rl.visitors.find? (fun p => p.1 == ip) with
  | none =>
    (true, { rl with visitors := (ip, ⟨(rl.burst : ℚ) - 1, now⟩) :: rl.visitors })
  | some (_, v) =>
    let balance := min ((rl.burst : ℚ)) (v.tokens + (now - v.lastCheck) * rl.rate)
    if balance < 1 then
      (false,
       { rl with visitors := rl.visitors.map (fun p =>
           if p.1 == ip then (p.1, ⟨balance, now⟩) else p) })
    else
      (true,
       { rl with visitors := rl.visitors.map (fun p =>
           if p.1 == ip then (p.1, ⟨balance - 1, now⟩) else p) })

/-- `n` back-to-back `allow` calls from the same address at the same
instant, returning the outcomes in order. -/
def allowTimes (rl : RateLimiter) (ip : String) (now : ℚ) : Nat → List Bool × RateLimiter
  | 0 => ([], rl)
  | n + 1 =>
    let (b, rl') := allow rl ip now
    let (bs, rl'') := allowTimes rl' ip now n
    (b :: bs, rl'')

/-- A concrete stored upload used in the concrete instances below. -/
def exUpload : Upload :=
  { id := "a", filename := "f.zip", originalSize := 1, compressedSize := 1,
    fileHash := "h", uploadedAt := 0, expiresAt := 100, downloadCount := 0,
    passwordHash := none, deletionToken := "del_t", createdAt := 0 }

/-- A second stored upload with a different id and deletion token. -/
def exUploadB : Upload :=
  { exUpload with id := "b", deletionToken := "del_u" }

/-- A one-record server state for the concrete instances. -/
def exState : ServerState := { records := [exUpload], blobs := [("a", [1])] }

/-- A two-record server state for the concrete instances. -/
def exStateTwo : ServerState :=
  { records := [exUpload, exUploadB], blobs := [("a", [1]), ("b", [2])] }

/-- Failure injection: the blob delete for id `"a"` fails, everything else
succeeds. -/
def blobFailFaults : Faults := { noFaults with storeDelete := fun id => id == "a" }

/-- Failure injection: creating the database record fails. -/
def createFailFaults : Faults := { noFaults with repoCreate := true }

/-- The configuration used in the concrete instances. -/
def exCfg : Config := { maxFileSize := 100, defaultExpiry := 7, baseURL := "http://localhost:8080" }

/-- The smallest well-formed buffer: an empty-archive end-of-central-directory
signature. -/
def exData : List Nat := [0x50, 0x4B, 0x05, 0x06]

/-- A zip parser stub returning two harmless entries, for the concrete
instances. -/
def exParse : List Nat → Option (List ZipEntry) :=
  fun _ => some [{ name := "a.txt", uncompressedSize := 3 }, { name := "b.py", uncompressedSize := 5 }]

/-- A zip entry whose declared zip64 uncompressed size is `2 ^ 63`, the
smallest value whose `int64` conversion wraps to a negative number. -/
def overflowEntry : ZipEntry := { name := "big.bin", uncompressedSize := 2 ^ 63 }

/-- A zip parser stub returning the single overflowing entry. -/
def overflowParse : List Nat → Option (List ZipEntry) := fun _ => some [overflowEntry]

/-- A zip entry named with U+0130 (Latin capital I with dot above), which
Go's Unicode lowercasing turns into the denylisted extension `.pif`. -/
def pifEntry : ZipEntry := { name := "x.PİF", uncompressedSize := 1 }

/-- A zip parser stub returning the single U+0130-named entry. -/
def pifParse : List Nat → Option (List ZipEntry) := fun _ => some [pifEntry]

/-- Result of the sample successful upload run used in the concrete
instances. -/
def sampleRes : UploadResult :=
  { id := "aaaaaaaaaaaaaaaa", downloadURL := "http://localhost:8080/d/aaaaaaaaaaaaaaaa",
    deletionToken := "del_aaaaaaaaaaaaaaaaaaaaaaaa", expiresAt := 7,
    filename := "f.zip", size := 4 }

/-- Record created by the sample successful upload run. -/
def sampleUpload : Upload :=
  { id := "aaaaaaaaaaaaaaaa", filename := "f.zip", originalSize := 8,
    compressedSize := 4, fileHash := "80,75,5,6", uploadedAt := 0, expiresAt := 7,
    downloadCount := 0, passwordHash := none,
    deletionToken := "del_aaaaaaaaaaaaaaaaaaaaaaaa", createdAt := 0 }

/-- Store state after the sample successful upload run. -/
def sampleSt : ServerState :=
  { records := [sampleUpload], blobs := [("aaaaaaaaaaaaaaaa", [80, 75, 5, 6])] }

-- Helper lemmas

theorem toInt64_of_nonneg_lt (x : Int) (h0 : 0 ≤ x) (h1 : x < 2 ^ 63) : toInt64 x = x := by
  unfold toInt64
  have h : (x + 2 ^ 63) % 2 ^ 64 = x + 2 ^ 63 := Int.emod_eq_of_lt (by omega) (by omega)
  omega

theorem int64ofUInt64_small (u : Nat) (h : (u : Int) < 2 ^ 63) : int64ofUInt64 u = u := by
  unfold int64ofUInt64
  have h2 : (u : Int) % 2 ^ 64 = (u : Int) :=
    Int.emod_eq_of_lt (by positivity) (by omega)
  rw [h2, toInt64_of_nonneg_lt _ (by positivity) h]

theorem scanEntries_dangerous_iff (es : List ZipEntry) (acc : Int) :
    scanEntries es acc = Except.error Err.dangerousFile ↔
      ∃ e ∈ es, toLowerStr (filepathExt e.name) ∈ dangerousExtensions := by
  induction es generalizing acc with
  | nil => simp [scanEntries]
  | cons e rest ih =>
    by_cases hd : toLowerStr (filepathExt e.name) ∈ dangerousExtensions
    · simp [scanEntries, hd]
    · simp [scanEntries, hd, ih]

theorem scanEntries_ok (es : List ZipEntry) (acc : Int) (h0 : 0 ≤ acc)
    (hno : ∀ e ∈ es, toLowerStr (filepathExt e.name) ∉ dangerousExtensions)
    (hsum : acc + (es.map (fun e => (e.uncompressedSize : Int))).sum < 2 ^ 63) :
    scanEntries es acc =
      Except.ok (acc + (es.map (fun e => (e.uncompressedSize : Int))).sum) := by
  induction es generalizing acc with
  | nil => simp [scanEntries]
  | cons e rest ih =>
    have he : toLowerStr (filepathExt e.name) ∉ dangerousExtensions := hno e (by simp)
    have hrest : (0 : Int) ≤ (rest.map (fun e => (e.uncompressedSize : Int))).sum :=
      List.sum_nonneg (by
        intro x hx
        obtain ⟨y, _, rfl⟩ := List.mem_map.1 hx
        positivity)
    have hsum' : acc + ((e.uncompressedSize : Int) +
        (rest.map (fun e => (e.uncompressedSize : Int))).sum) < 2 ^ 63 := by
      simpa using hsum
    have hself : (e.uncompressedSize : Int) < 2 ^ 63 := by
      have h1 : (0 : Int) ≤ (e.uncompressedSize : Int) := by positivity
      linarith
    have hacc : acc + (e.uncompressedSize : Int) < 2 ^ 63 := by
      have h1 : (0 : Int) ≤ (e.uncompressedSize : Int) := by positivity
      linarith
    simp only [scanEntries, if_neg he]
    rw [int64ofUInt64_small _ hself,
      toInt64_of_nonneg_lt _ (by positivity) hacc]
    rw [ih (acc + (e.uncompressedSize : Int)) (by positivity)
      (fun x hx => hno x (by simp [hx])) (by linarith)]
    congr 1
    simp only [List.map_cons, List.sum_cons]
    ring

theorem charset_getD_mem (k : Nat) : charset.getD (k % charset.length) 'A' ∈ charset := by
  have h : k % charset.length < charset.length := Nat.mod_lt _ (by decide)
  rw [List.getD_eq_getElem charset 'A' h]
  exact List.getElem_mem h

theorem generateSecureToken_length (oracle : Nat → Nat) (n : Nat) :
    (generateSecureToken oracle n).length = n := by
  show ((List.range n).map fun i => charset.getD (oracle i % charset.length) 'A').length = n
  simp

theorem generateSecureToken_mem (oracle : Nat → Nat) (n : Nat) :
    ∀ c ∈ (generateSecureToken oracle n).data, c ∈ charset := by
  intro c hc
  change c ∈ (List.range n).map (fun i => charset.getD (oracle i % charset.length) 'A') at hc
  obtain ⟨i, _, rfl⟩ := List.mem_map.1 hc
  exact charset_getD_mem _

theorem storeDeleteOp_records (st : ServerState) (f : Faults) (id : String) :
    (storeDeleteOp st f id).records = st.records := by
  unfold storeDeleteOp
  split <;> rfl

theorem storeDeleteOp_blobs_fresh (st : ServerState) (f : Faults) (id : String)
    (data : List Nat) (hf : f.storeDelete id = false)
    (hfresh : ∀ b ∈ st.blobs, b.1 ≠ id) :
    (storeDeleteOp { st with blobs := (id, data) :: st.blobs } f id).blobs = st.blobs := by
  unfold storeDeleteOp
  rw [if_neg (by simp [hf])]
  show ((id, data) :: st.blobs).filter (fun b => decide (b.1 ≠ id)) = st.blobs
  rw [List.filter_cons_of_neg (by simp)]
  exact List.filter_eq_self.mpr (fun b hb => by simpa using hfresh b hb)

theorem cleanupStep_records_sublist (f : Faults) (acc : ServerState × Nat × Nat)
    (u : Upload) : ((cleanupStep f acc u).1.records).Sublist acc.1.records := by
  obtain ⟨s, cleaned, failed⟩ := acc
  unfold cleanupStep
  dsimp only
  split
  · exact List.Sublist.refl _
  · split
    · exact List.Sublist.refl _
    · exact List.filter_sublist _

theorem cleanupFold_records_sublist (f : Faults) (l : List Upload) :
    ∀ acc : ServerState × Nat × Nat,
      ((l.foldl (cleanupStep f) acc).1.records).Sublist acc.1.records := by
  induction l with
  | nil => intro acc; exact List.Sublist.refl _
  | cons x xs ih =>
    intro acc
    exact (ih (cleanupStep f acc x)).trans (cleanupStep_records_sublist f acc x)

theorem cleanupStep_removes (f : Faults) (acc : ServerState × Nat × Nat) (u : Upload)
    (hs : f.storeDelete u.id = false) (hr : f.repoDelete u.id = false) :
    ∀ v ∈ (cleanupStep f acc u).1.records, v.id ≠ u.id := by
  obtain ⟨s, cleaned, failed⟩ := acc
  unfold cleanupStep
  dsimp only
  rw [if_neg (by simp [hs]), if_neg (by simp [hr])]
  intro v hv
  simpa using (List.mem_filter.1 hv).2

theorem magicBytes_cases (data : List Nat) :
    (validateZipMagicBytes data = Except.ok () ↔
      4 ≤ data.length ∧
        (data.take 4 = [0x50, 0x4B, 0x03, 0x04] ∨
          data.take 4 = [0x50, 0x4B, 0x05, 0x06])) ∧
    (validateZipMagicBytes data = Except.ok () ∨
      validateZipMagicBytes data = Except.error Err.invalidZip) := by
  match data with
  | [] => simp [validateZipMagicBytes]
  | [b0] => simp [validateZipMagicBytes]
  | [b0, b1] => simp [validateZipMagicBytes]
  | [b0, b1, b2] => simp [validateZipMagicBytes]
  | b0 :: b1 :: b2 :: b3 :: rest =>
    refine ⟨?_, ?_⟩
    · by_cases h : b0 = 0x50 ∧ b1 = 0x4B ∧ ((b2 = 0x03 ∧ b3 = 0x04) ∨ (b2 = 0x05 ∧ b3 = 0x06))
      · simp only [validateZipMagicBytes, if_pos h, List.take_succ_cons, List.take_zero,
          List.length_cons]
        constructor
        · intro _
          refine ⟨by omega, ?_⟩
          obtain ⟨h0, h1, h23⟩ := h
          rcases h23 with ⟨h2, h3⟩ | ⟨h2, h3⟩
          · exact Or.inl (by simp [h0, h1, h2, h3])
          · exact Or.inr (by simp [h0, h1, h2, h3])
        · intro _; trivial
      · simp only [validateZipMagicBytes, if_neg h, List.take_succ_cons, List.take_zero,
          List.length_cons]
        constructor
        · intro hcontra; exact absurd hcontra (by simp)
        · rintro ⟨-, hl | hl⟩ <;> simp only [List.cons.injEq, and_true] at hl <;>
            exact absurd (by tauto) h
    · by_cases h : b0 = 0x50 ∧ b1 = 0x4B ∧ ((b2 = 0x03 ∧ b3 = 0x04) ∨ (b2 = 0x05 ∧ b3 = 0x06))
      · exact Or.inl (by simp [validateZipMagicBytes, h])
      · exact Or.inr (by simp [validateZipMagicBytes, h])

/-- C7: for every byte buffer, the magic-byte check succeeds exactly when the
buffer is at least 4 bytes long and begins with the local-file-header
signature `50 4B 03 04` or the empty-archive signature `50 4B 05 06`, and
every other buffer fails with the `invalidZip` error. -/
theorem validateZipMagicBytes_spec (data : List Nat) :
    (validateZipMagicBytes data = Except.ok () ↔
      4 ≤ data.length ∧
        (data.take 4 = [0x50, 0x4B, 0x03, 0x04] ∨
          data.take 4 = [0x50, 0x4B, 0x05, 0x06])) ∧
    (validateZipMagicBytes data = Except.ok () ∨
      validateZipMagicBytes data = Except.error Err.invalidZip) :=
  magicBytes_cases data

theorem scanEntries_err (es : List ZipEntry) (acc : Int) (e : Err)
    (h : scanEntries es acc = Except.error e) : e = Err.dangerousFile := by
  induction es generalizing acc with
  | nil => simp [scanEntries] at h
  | cons f rest ih =>
    by_cases hd : toLowerStr (filepathExt f.name) ∈ dangerousExtensions
    · simp only [scanEntries, if_pos hd, Except.error.injEq] at h
      exact h.symm
    · simp only [scanEntries, if_neg hd] at h
      exact ih _ h

theorem validateAndMeasureZip_err (parse : List Nat → Option (List ZipEntry))
    (data : List Nat) (e : Err)
    (h : validateAndMeasureZip parse data = Except.error e) :
    e = Err.invalidZip ∨ e = Err.dangerousFile := by
  unfold validateAndMeasureZip at h
  rcases hp : parse data with _ | entries <;> rw [hp] at h <;> dsimp only at h
  · exact Or.inl (Except.error.inj h).symm
  · exact Or.inr (scanEntries_err entries 0 e h)

/-- C6 amended: over every parser and byte buffer, the structural scan
rejects with the `dangerousFile` error exactly when some parsed entry has a
lower-cased extension in the 16-entry denylist; when no entry is denylisted
it returns the declared uncompressed entry sizes accumulated with `int64`
conversion and wrapping, which equals the mathematical sum whenever that
sum is below `2 ^ 63`; and a buffer the parser rejects fails with the
distinct `invalidZip` error. -/
theorem validateAndMeasureZip_spec (parse : List Nat → Option (List ZipEntry))
    (data : List Nat) :
    (parse data = none → validateAndMeasureZip parse data = Except.error Err.invalidZip) ∧
    (∀ entries, parse data = some entries →
      ((validateAndMeasureZip parse data = Except.error Err.dangerousFile ↔
          ∃ e ∈ entries, toLowerStr (filepathExt e.name) ∈ dangerousExtensions) ∧
        ((∀ e ∈ entries, toLowerStr (filepathExt e.name) ∉ dangerousExtensions) →
          (entries.map (fun e => (e.uncompressedSize : Int))).sum < 2 ^ 63 →
          validateAndMeasureZip parse data =
            Except.ok ((entries.map (fun e => (e.uncompressedSize : Int))).sum)))) := by
  refine ⟨fun h => by simp [validateAndMeasureZip, h], fun entries h => ⟨?_, ?_⟩⟩
  · simp [validateAndMeasureZip, h, scanEntries_dangerous_iff]
  · intro hno hsum
    have hok := scanEntries_ok entries 0 le_rfl hno (by simpa using hsum)
    simp only [zero_add] at hok
    simp [validateAndMeasureZip, h, hok]

/-- C6 counterexample: against the unqualified "equal to the sum" claim, a
single crafted zip64 entry declaring uncompressed size `2 ^ 63` (and no
denylisted extension) makes the scan return the `int64`-wrapped value
`-(2 ^ 63)`, which differs from the declared sum `2 ^ 63`. -/
theorem validateAndMeasureZip_overflow_not_sum :
    overflowParse [0] = some [overflowEntry] ∧
    toLowerStr (filepathExt overflowEntry.name) ∉ dangerousExtensions ∧
    validateAndMeasureZip overflowParse [0] = Except.ok (-(2 ^ 63)) ∧
    ([overflowEntry].map (fun e => (e.uncompressedSize : Int))).sum = 2 ^ 63 ∧
    (-(2 ^ 63) : Int) ≠ 2 ^ 63 := by
  refine ⟨rfl, by decide, by decide, by decide, by decide⟩

/-- C6 witness: a parser that rejects the buffer yields `invalidZip`; a
parser returning two harmless entries of sizes 3 and 5 yields `ok 8`; and an
entry named with U+0130, which lowercases to the denylisted `.pif`, is
rejected as dangerous. -/
theorem validateAndMeasureZip_spec_witness :
    validateAndMeasureZip (fun _ => none) [0] = Except.error Err.invalidZip ∧
    validateAndMeasureZip exParse [0] = Except.ok 8 ∧
    validateAndMeasureZip pifParse [0] = Except.error Err.dangerousFile := by
  refine ⟨(validateAndMeasureZip_spec (fun _ => none) [0]).1 rfl, ?_, ?_⟩
  · have h := ((validateAndMeasureZip_spec exParse [0]).2 _ rfl).2 (by decide) (by decide)
    simpa using h
  · exact ((validateAndMeasureZip_spec pifParse [0]).2 _ rfl).1.mpr
      ⟨pifEntry, by decide, by decide⟩

/-- C7 witness: the two signature prefixes are accepted and a non-signature
buffer fails with `invalidZip`. -/
theorem validateZipMagicBytes_spec_witness :
    validateZipMagicBytes [0x50, 0x4B, 0x03, 0x04] = Except.ok () ∧
    validateZipMagicBytes [1, 2, 3, 4] = Except.error Err.invalidZip := by
  constructor
  · exact (validateZipMagicBytes_spec [0x50, 0x4B, 0x03, 0x04]).1.mpr
      ⟨by decide, Or.inl (by decide)⟩
  · have hne : validateZipMagicBytes [1, 2, 3, 4] ≠ Except.ok () := by decide
    exact (validateZipMagicBytes_spec [1, 2, 3, 4]).2.resolve_left hne

/-- C5: `allow` implements exactly the specified token-bucket transition
(create with `b - 1` and allow when absent; refill by `elapsed * r` capped
at `b`, deny below balance 1 without consuming, else consume one and allow),
and with rate 10 and burst 20 twenty immediate requests from one address all
succeed while the 21st is denied. -/
theorem allow_spec_and_burst :
    (∀ (rl : RateLimiter) (ip : String) (now : ℚ), allow rl ip now = allowSpec rl ip now) ∧
    (allowTimes { visitors := [], rate := 10, burst := 20 } "addr" 0 21).1 =
      List.replicate 20 true ++ [false] := by
  constructor
  · intro rl ip now
    rcases h : rl.visitors.find? (fun p => p.1 == ip) with _ | ⟨q, v⟩
    · simp only [allow, allowSpec, h]
    · simp only [allow, allowSpec, h]
      have hmin :
          (if (rl.burst : ℚ) < v.tokens + (now - v.lastCheck) * rl.rate then (rl.burst : ℚ)
            else v.tokens + (now - v.lastCheck) * rl.rate) =
            min ((rl.burst : ℚ)) (v.tokens + (now - v.lastCheck) * rl.rate) := by
        rcases le_or_lt (v.tokens + (now - v.lastCheck) * rl.rate) ((rl.burst : ℚ)) with h1 | h1
        · rw [if_neg (not_lt.2 h1), min_eq_right h1]
        · rw [if_pos h1, min_eq_left h1.le]
      rw [hmin]
  · norm_num [allowTimes, allow]
    rfl

/-- C1 counterexample: a single expired record whose blob delete fails keeps
its metadata record in the Record Store after the cycle (the cycle counts it
as failed, cleaning nothing), contrary to the claim that the record's
metadata record is still removed. -/
theorem runCleanup_blob_fail_keeps_record :
    exUpload.expiresAt < 200 ∧
    blobFailFaults.storeDelete exUpload.id = true ∧
    (runCleanup exState blobFailFaults 200).1.records = [exUpload] ∧
    (runCleanup exState blobFailFaults 200).2 = (0, 1) := by
  decide

/-- C1 amended: a failure on one record does not abort the cycle or affect
the other expired records — any expired record whose own blob delete and
record delete succeed is removed from the Record Store, whatever failures
the other records hit; but a record whose blob delete fails is skipped
(counted as failed) and keeps its metadata record for a later cycle. -/
theorem runCleanup_per_record_best_effort (st : ServerState) (f : Faults) (now : Int)
    (u : Upload) (hq : f.repoGetExpired = false) (hu : u ∈ st.records)
    (hexp : u.expiresAt < now) (hs : f.storeDelete u.id = false)
    (hr : f.repoDelete u.id = false) :
    findRecord (runCleanup st f now).1.records u.id = none := by
  have hufilter : u ∈ st.records.filter (fun v => decide (v.expiresAt < now)) :=
    List.mem_filter.2 ⟨hu, by simpa using hexp⟩
  obtain ⟨l1, l2, hsplit⟩ := List.append_of_mem hufilter
  have hrun : (runCleanup st f now).1 =
      ((l1 ++ u :: l2).foldl (cleanupStep f) (st, 0, 0)).1 := by
    simp only [runCleanup, hq, if_false, Bool.false_eq_true]
    rw [← hsplit]
  rw [hrun, List.foldl_append, List.foldl_cons]
  apply List.find?_eq_none.2
  intro v hv
  have hsub := (cleanupFold_records_sublist f l2
    (cleanupStep f (l1.foldl (cleanupStep f) (st, 0, 0)) u)).subset
  have hne := cleanupStep_removes f (l1.foldl (cleanupStep f) (st, 0, 0)) u hs hr v (hsub hv)
  simpa using hne

/-- C1 witness: in a two-record state where record `"a"`'s blob delete fails
and record `"b"` is fault-free, record `"b"` is gone after the cycle. -/
theorem runCleanup_per_record_best_effort_witness :
    blobFailFaults.repoGetExpired = false ∧
    exUploadB ∈ exStateTwo.records ∧
    exUploadB.expiresAt < 200 ∧
    blobFailFaults.storeDelete exUploadB.id = false ∧
    blobFailFaults.repoDelete exUploadB.id = false ∧
    findRecord (runCleanup exStateTwo blobFailFaults 200).1.records exUploadB.id = none :=
  ⟨rfl, by decide, by decide, rfl, rfl,
    runCleanup_per_record_best_effort exStateTwo blobFailFaults 200 exUploadB rfl
      (by decide) (by decide) rfl rfl⟩

/-- C2 counterexample: at the instant `now = expiresAt` (so `now ≥ expiresAt`
holds) neither `GetInfo` nor `Download` returns the Expired error — the code
expires strictly after `expiresAt`, not at it. -/
theorem expiry_boundary_not_expired :
    (100 : Int) ≥ exUpload.expiresAt ∧
    ¬(getInfo exState 100 "a" = Except.error Err.expired) ∧
    ¬((download exState noFaults 100 "a" "").1 = Except.error Err.expired) := by
  refine ⟨by decide, ?_, ?_⟩ <;> decide

theorem expiry_gate (st : ServerState) (f : Faults) (now : Int)
    (id password : String) (u : Upload) (h : findRecord st.records id = some u) :
    (getInfo st now id = Except.error Err.expired ↔ u.expiresAt < now) ∧
    ((download st f now id password).1 = Except.error Err.expired ↔ u.expiresAt < now) := by
  by_cases hlt : u.expiresAt < now
  · constructor
    · simp [getInfo, h, hlt]
    · simp [download, h, hlt]
  · constructor
    · simp only [getInfo, h, if_neg hlt]
      simp [hlt]
    · simp only [download, h, if_neg hlt]
      constructor
      · intro hc
        exfalso
        split at hc
        next e heq =>
          simp only [Except.error.injEq] at hc
          subst hc
          rcases hpw : u.passwordHash with _ | ph <;> rw [hpw] at heq
          · simp at heq
          · dsimp only at heq
            by_cases hemp : password = ""
            · rw [if_pos hemp] at heq; simp at heq
            · rw [if_neg hemp] at heq
              by_cases hbc : bcryptCompare ph password = true
              · rw [if_pos hbc] at heq; simp at heq
              · rw [if_neg hbc] at heq; simp at heq
        next heq =>
          split at hc <;> simp at hc
      · intro hc; exact absurd hc hlt

/-- C2 amended: for every record present in the Record Store, `GetInfo` and
`Download` return the Expired error exactly when the current time is
strictly greater than the record's `expiresAt` (the record is readable while
`now ≤ expiresAt`), and otherwise proceed past the expiry check. -/
theorem expiry_check_strict (st : ServerState) (f : Faults) (now : Int)
    (id password : String) (u : Upload) (h : findRecord st.records id = some u) :
    (getInfo st now id = Except.error Err.expired ↔ u.expiresAt < now) ∧
    ((download st f now id password).1 = Except.error Err.expired ↔ u.expiresAt < now) :=
  expiry_gate st f now id password u h

/-- C2 witness: a record with `expiresAt = 100` is Expired at `now = 101` for
both `GetInfo` and `Download`, and not Expired at `now = 99`. -/
theorem expiry_check_strict_witness :
    findRecord exState.records "a" = some exUpload ∧
    getInfo exState 101 "a" = Except.error Err.expired ∧
    (download exState noFaults 101 "a" "").1 = Except.error Err.expired ∧
    ¬(getInfo exState 99 "a" = Except.error Err.expired) :=
  ⟨rfl,
    (expiry_check_strict exState noFaults 101 "a" "" exUpload rfl).1.mpr (by decide),
    (expiry_check_strict exState noFaults 101 "a" "" exUpload rfl).2.mpr (by decide),
    fun hc =>
      absurd ((expiry_check_strict exState noFaults 99 "a" "" exUpload rfl).1.mp hc)
        (by decide)⟩

theorem deleteUpload_auth_cases (st : ServerState) (f : Faults) (id token : String)
    (u : Upload) (h : findRecord st.records id = some u) :
    (u.deletionToken ≠ token →
      deleteUpload st f id token = (Except.error Err.invalidToken, st)) ∧
    (u.deletionToken = token → f.repoDelete id = false →
      (deleteUpload st f id token).1 = Except.ok () ∧
      findRecord (deleteUpload st f id token).2.records id = none) := by
  constructor
  · intro hne
    simp [deleteUpload, h, hne]
  · intro he hr
    simp only [deleteUpload, h, he, ne_eq, not_true_eq_false, if_false, hr,
      Bool.false_eq_true, reduceIte]
    refine ⟨trivial, List.find?_eq_none.2 ?_⟩
    intro v hv
    simpa using (List.mem_filter.1 hv).2

/-- C4: for every stored record, `DeleteUpload` with a non-matching token
returns `invalidToken` and leaves both stores untouched; with the exactly
matching token (and the record-store delete itself not failing) it removes
the metadata record even when the blob delete fails. -/
theorem deleteUpload_token_auth (st : ServerState) (f : Faults) (id token : String)
    (u : Upload) (h : findRecord st.records id = some u) :
    (u.deletionToken ≠ token →
      deleteUpload st f id token = (Except.error Err.invalidToken, st)) ∧
    (u.deletionToken = token → f.repoDelete id = false →
      (deleteUpload st f id token).1 = Except.ok () ∧
      findRecord (deleteUpload st f id token).2.records id = none) :=
  deleteUpload_auth_cases st f id token u h

/-- C4 witness: with the wrong token nothing changes and `invalidToken` is
returned; with the exact stored token the metadata record is removed even
though the blob delete for this id is injected to fail. -/
theorem deleteUpload_token_auth_witness :
    deleteUpload exState blobFailFaults "a" "wrong" = (Except.error Err.invalidToken, exState) ∧
    (deleteUpload exState blobFailFaults "a" "del_t").1 = Except.ok () ∧
    findRecord (deleteUpload exState blobFailFaults "a" "del_t").2.records "a" = none :=
  ⟨(deleteUpload_token_auth exState blobFailFaults "a" "wrong" exUpload rfl).1 (by decide),
    (deleteUpload_token_auth exState blobFailFaults "a" "del_t" exUpload rfl).2 (by decide) rfl⟩

/-- C10: `DeleteUpload` performs no expiry check — a record whose
`expiresAt` is already past (so `GetInfo` and `Download` return Expired) is
still deleted successfully by `DeleteUpload` with the correct token. -/
theorem deleteUpload_ignores_expiry (st : ServerState) (f : Faults) (now : Int)
    (id token password : String) (u : Upload) (h : findRecord st.records id = some u)
    (hexp : u.expiresAt < now) (htok : u.deletionToken = token)
    (hr : f.repoDelete id = false) :
    (deleteUpload st f id token).1 = Except.ok () ∧
    findRecord (deleteUpload st f id token).2.records id = none ∧
    getInfo st now id = Except.error Err.expired ∧
    (download st f now id password).1 = Except.error Err.expired := by
  obtain ⟨h1, h2⟩ := (deleteUpload_auth_cases st f id token u h).2 htok hr
  refine ⟨h1, h2, ?_, ?_⟩
  · exact (expiry_gate st f now id password u h).1.mpr hexp
  · exact (expiry_gate st f now id password u h).2.mpr hexp

/-- C10 witness: record `"a"` expired at 100; at `now = 200`, `GetInfo`
returns Expired while `DeleteUpload` with the stored token succeeds and
removes the record. -/
theorem deleteUpload_ignores_expiry_witness :
    (deleteUpload exState noFaults "a" "del_t").1 = Except.ok () ∧
    findRecord (deleteUpload exState noFaults "a" "del_t").2.records "a" = none ∧
    getInfo exState 200 "a" = Except.error Err.expired ∧
    (download exState noFaults 200 "a" "").1 = Except.error Err.expired :=
  deleteUpload_ignores_expiry exState noFaults 200 "a" "del_t" "" exUpload rfl
    (by decide) rfl rfl

theorem processUpload_inv (cfg : Config) (f : Faults) (oracle : Nat → Nat)
    (parse : List Nat → Option (List ZipEntry)) (st : ServerState)
    (filename : String) (data : List Nat) (size : Int) (password : String) (now : Int)
    (res : Except Err UploadResult) (st' : ServerState)
    (h : processUpload cfg f oracle parse st filename data size password now =
      some (res, st')) :
    (∃ e, res = Except.error e ∧ st' = st ∧
        (e = Err.fileTooLarge ∨ e = Err.invalidZip ∨ e = Err.dangerousFile ∨
          e = Err.internal "failed to generate upload ID" ∨
          e = Err.internal "failed to generate deletion token" ∨
          e = Err.internal "failed to read upload data" ∨
          e = Err.internal "failed to store file")) ∨
    (∃ e, res = Except.error e ∧
        st' = storeDeleteOp
          { st with blobs := (generateSecureToken oracle 16, data) :: st.blobs } f
          (generateSecureToken oracle 16) ∧
        (e = Err.internal "failed to hash password" ∨
          e = Err.internal "failed to create upload record")) ∨
    (∃ r, res = Except.ok r ∧
        r.id = generateSecureToken oracle 16 ∧
        r.deletionToken = "del_" ++ generateSecureToken (fun i => oracle (16 + i)) 24) := by
  unfold processUpload at h
  dsimp only at h
  split at h
  · simp only [Option.some.injEq, Prod.mk.injEq] at h
    exact Or.inl ⟨Err.fileTooLarge, h.1.symm, h.2.symm, by tauto⟩
  · split at h
    · simp only [Option.some.injEq, Prod.mk.injEq] at h
      exact Or.inl ⟨_, h.1.symm, h.2.symm, by tauto⟩
    · split at h
      · simp only [Option.some.injEq, Prod.mk.injEq] at h
        exact Or.inl ⟨_, h.1.symm, h.2.symm, by tauto⟩
      · split at h
        · simp only [Option.some.injEq, Prod.mk.injEq] at h
          exact Or.inl ⟨_, h.1.symm, h.2.symm, by tauto⟩
        · split at h
          next e heq =>
            have hmagic : e = Err.invalidZip := by
              rcases (magicBytes_cases data).2 with hok | herr
              · rw [hok] at heq; exact absurd heq (by simp)
              · rw [herr] at heq; exact (Except.error.inj heq).symm
            simp only [Option.some.injEq, Prod.mk.injEq] at h
            exact Or.inl ⟨e, h.1.symm, h.2.symm, by tauto⟩
          next heq =>
            split at h
            next e2 heq2 =>
              have hz : e2 = Err.invalidZip ∨ e2 = Err.dangerousFile :=
                validateAndMeasureZip_err parse data e2 heq2
              simp only [Option.some.injEq, Prod.mk.injEq] at h
              exact Or.inl ⟨e2, h.1.symm, h.2.symm, by tauto⟩
            next originalSize heq2 =>
              split at h
              · simp only [Option.some.injEq, Prod.mk.injEq] at h
                exact Or.inl ⟨_, h.1.symm, h.2.symm, by tauto⟩
              · split at h
                · simp only [Option.some.injEq, Prod.mk.injEq] at h
                  exact Or.inr (Or.inl ⟨_, h.1.symm, h.2.symm, by tauto⟩)
                · split at h
                  next hfn => exact absurd h (by simp)
                  next fname hfn =>
                    split at h
                    · simp only [Option.some.injEq, Prod.mk.injEq] at h
                      exact Or.inr (Or.inl ⟨_, h.1.symm, h.2.symm, by tauto⟩)
                    · simp only [Option.some.injEq, Prod.mk.injEq] at h
                      exact Or.inr (Or.inr ⟨_, h.1.symm, rfl, rfl⟩)

/-- C3: if `ProcessUpload` returns an error, no upload record is created —
the Record Store is unchanged on every error path; the size-limit,
magic-byte and structural-scan failures return the state fully untouched
(they occur before the blob write); and on every error path the Blob Store
is also unchanged provided the compensating blob delete for the fresh id is
not itself failing. -/
theorem processUpload_error_no_persist (cfg : Config) (f : Faults) (oracle : Nat → Nat)
    (parse : List Nat → Option (List ZipEntry)) (st : ServerState)
    (filename : String) (data : List Nat) (size : Int) (password : String) (now : Int)
    (e : Err) (st' : ServerState)
    (h : processUpload cfg f oracle parse st filename data size password now =
      some (Except.error e, st')) :
    st'.records = st.records ∧
    ((e = Err.fileTooLarge ∨ e = Err.invalidZip ∨ e = Err.dangerousFile) → st' = st) ∧
    (f.storeDelete (generateSecureToken oracle 16) = false →
      (∀ b ∈ st.blobs, b.1 ≠ generateSecureToken oracle 16) →
      st'.blobs = st.blobs) := by
  rcases processUpload_inv cfg f oracle parse st filename data size password now _ st' h with
    ⟨e1, he1, hst, _⟩ | ⟨e1, he1, hst, hcase⟩ | ⟨r, hr, _, _⟩
  · subst hst
    exact ⟨rfl, fun _ => rfl, fun _ _ => rfl⟩
  · have hee : e = e1 := Except.error.inj he1
    refine ⟨by rw [hst, storeDeleteOp_records], ?_, ?_⟩
    · intro h3
      exfalso
      rcases hcase with hc | hc <;> rcases h3 with h3 | h3 | h3 <;> simp_all
    · intro hs hfresh
      rw [hst, storeDeleteOp_blobs_fresh st f _ data hs hfresh]
  · exact absurd hr (by simp)

/-- C3 witness: a run whose record creation fails returns the "failed to
create upload record" error with the state restored to the original
`exState` — no record created and the freshly saved blob compensated away. -/
theorem processUpload_error_no_persist_witness :
    (processUpload exCfg createFailFaults (fun _ => 0) exParse exState "f.zip" exData 4 "" 0 =
      some (Except.error (Err.internal "failed to create upload record"), exState)) ∧
    exState.records = exState.records ∧ exState.blobs = exState.blobs :=
  have h : processUpload exCfg createFailFaults (fun _ => 0) exParse exState
      "f.zip" exData 4 "" 0 =
      some (Except.error (Err.internal "failed to create upload record"), exState) := by
    decide
  ⟨h,
    (processUpload_error_no_persist exCfg createFailFaults (fun _ => 0) exParse exState
      "f.zip" exData 4 "" 0 _ exState h).1,
    (processUpload_error_no_persist exCfg createFailFaults (fun _ => 0) exParse exState
      "f.zip" exData 4 "" 0 _ exState h).2.2 rfl (by decide)⟩

/-- C8: a successful `generateSecureToken length` call returns exactly
`length` characters from the fixed 62-character alphanumeric alphabet, and
every successful `ProcessUpload` returns a 16-character id over that
alphabet and a deletion token that is the constant prefix "del_" followed
by 24 characters over that alphabet. -/
theorem token_format :
    (∀ (oracle : Nat → Nat) (n : Nat),
        (generateSecureToken oracle n).length = n ∧
          ∀ c ∈ (generateSecureToken oracle n).data, c ∈ charset) ∧
    (∀ (cfg : Config) (f : Faults) (oracle : Nat → Nat)
        (parse : List Nat → Option (List ZipEntry)) (st : ServerState)
        (filename : String) (data : List Nat) (size : Int) (password : String)
        (now : Int) (r : UploadResult) (st' : ServerState),
        processUpload cfg f oracle parse st filename data size password now =
            some (Except.ok r, st') →
        r.id.length = 16 ∧ (∀ c ∈ r.id.data, c ∈ charset) ∧
          ∃ t, r.deletionToken = "del_" ++ t ∧ t.length = 24 ∧
            ∀ c ∈ t.data, c ∈ charset) := by
  refine ⟨fun oracle n =>
    ⟨generateSecureToken_length oracle n, generateSecureToken_mem oracle n⟩, ?_⟩
  intro cfg f oracle parse st filename data size password now r st' h
  rcases processUpload_inv cfg f oracle parse st filename data size password now _ st' h with
    ⟨e1, he1, _, _⟩ | ⟨e1, he1, _, _⟩ | ⟨r1, hr1, hid, htok⟩
  · exact absurd he1 (by simp)
  · exact absurd he1 (by simp)
  · obtain rfl : r1 = r := (Except.ok.inj hr1).symm
    refine ⟨?_, ?_, ?_⟩
    · rw [hid]; exact generateSecureToken_length oracle 16
    · rw [hid]; exact generateSecureToken_mem oracle 16
    · exact ⟨_, htok, generateSecureToken_length _ 24, generateSecureToken_mem _ 24⟩

/-- C8 witness: the sample run succeeds with a 16-character id and a
"del_"-prefixed 24-character deletion token over the alphabet. -/
theorem token_format_witness :
    (processUpload exCfg noFaults (fun _ => 0) exParse { records := [], blobs := [] }
        "f.zip" exData 4 "" 0 = some (Except.ok sampleRes, sampleSt)) ∧
    (sampleRes.id.length = 16 ∧ (∀ c ∈ sampleRes.id.data, c ∈ charset) ∧
      ∃ t, sampleRes.deletionToken = "del_" ++ t ∧ t.length = 24 ∧
        ∀ c ∈ t.data, c ∈ charset) :=
  have h : processUpload exCfg noFaults (fun _ => 0) exParse { records := [], blobs := [] }
      "f.zip" exData 4 "" 0 = some (Except.ok sampleRes, sampleSt) := by decide
  ⟨h, token_format.2 exCfg noFaults (fun _ => 0) exParse { records := [], blobs := [] }
    "f.zip" exData 4 "" 0 sampleRes sampleSt h⟩

set_option maxRecDepth 8000 in
/-- C9: counter to the claim that `sanitizeFilename` always returns a name of
at most 255 characters, a 300-character input consisting of a dot followed
by 299 letters reaches the truncation branch with an extension longer than
255 characters, so the Go slice expression `name[:255-len(ext)]` has a
negative bound and panics at run time (modelled as `none`). -/
theorem sanitizeFilename_long_ext_panic :
    sanitizeFilename (String.mk ('.' :: List.replicate 299 'a')) = none := by
  decide

end Beam
